import Mathlib

/-!
Verification of the bulk variable-length text column buffer
(`src/odbc-api/src/buffers/text_column.rs`).

Embedding conventions:
* Machine `usize` lengths and indices are `Nat`; `isize` indicator entries are `Int`.
* A Rust operation that can panic (out-of-bounds index, over-long value) is
  embedded as an `Option`-valued function; `none` means the call panics.
* `Vec<C>` is `List C`; the element type `C` is kept abstract through the
  `CharElem` class which supplies the Rust `C::default()` value and
  `size_of::<C>()` (1 for `u8`, 2 for `u16`).
* The growth policy of `append` uses Rust `f64` arithmetic
  (`(text.len() as f64 * 1.2) as usize`); it is embedded exactly, with
  round-to-nearest-even at 53 significand bits for the int-to-float
  conversion and for the product, and truncation toward zero for the final
  float-to-int cast.
-/

/-- Element type interface: the Rust `C: Default + Copy` bound together with
`size_of::<C>()`. `C` is intended to be a character unit (`u8` or `u16`). -/
class CharElem (C : Type) where
  defaultVal : C
  size_of : Nat
  size_pos : 0 < size_of

/-- The byte size `size_of::<C>()` of the character unit. -/
def szOf (C : Type) [inst : CharElem C] : Nat := @CharElem.size_of C inst

/-- The Rust `C::default()` value (the zero character). -/
def defOf (C : Type) [inst : CharElem C] : C := @CharElem.defaultVal C inst

/-- A single-byte character unit (models `u8`); the payload is the byte value. -/
structure U8T where
  val : Nat
deriving DecidableEq, Repr

instance : CharElem U8T := ⟨⟨0⟩, 1, Nat.zero_lt_one⟩

/-- A double-byte character unit (models `u16`). -/
structure U16T where
  val : Nat
deriving DecidableEq, Repr

instance : CharElem U16T := ⟨⟨0⟩, 2, Nat.zero_lt_two⟩

/-- The ODBC sentinel `NULL_DATA` (SQL_NULL_DATA = -1), from the external
`odbc-sys` crate. -/
def NULL_DATA : Int := -1

/-- The ODBC sentinel `NO_TOTAL` (SQL_NO_TOTAL = -4), from the external
`odbc-sys` crate. -/
def NO_TOTAL : Int := -4

/-- Modelled from the spec: the `Indicator` value type (its source file is not
part of this repository snapshot). It is the tri-state length/null/truncation
marker: `Null` (no data), `NoTotal` (data present, exact length unknown),
`Length n` (exact length in bytes, possibly larger than the committed
capacity, which signals truncation). -/
inductive Indicator where
  | Null : Indicator
  | NoTotal : Indicator
  | Length : Nat → Indicator
deriving DecidableEq, Repr

/-- Modelled from the spec: construction of an `Indicator` from a native
indicator value. The two sentinels are distinct native marker values; any
other value is an exact byte length. -/
def Indicator.from_isize (i : Int) : Indicator :=
  if i = NULL_DATA then Indicator.Null
  else if i = NO_TOTAL then Indicator.NoTotal
  else Indicator.Length i.toNat

/-- Models `&xs[start..start + len]`: `none` when the range is out of bounds
(a Rust slice-index panic). -/
def listSlice (xs : List α) (start len : Nat) : Option (List α) :=
  if start + len ≤ xs.length then some ((xs.drop start).take len) else none

/-- Models `xs[i] = v`: `none` when `i` is out of bounds (a Rust index panic). -/
def listSet (xs : List α) (i : Nat) (v : α) : Option (List α) :=
  if i < xs.length then some (xs.set i v) else none

/-- Models `xs[start..start + data.len()].copy_from_slice(data)`: `none` when
the destination range is out of bounds (a Rust slice-index panic). -/
def writeSlice (xs : List α) (start : Nat) (data : List α) : Option (List α) :=
  if start + data.length ≤ xs.length then
    some (xs.take start ++ data ++ xs.drop (start + data.length))
  else none

/-- Indicator entries of the index range `[a, b)` overwritten with
`NULL_DATA`, the rest kept (the loop body of `fill_null`). -/
def nullRange (l : List Int) (a b : Nat) : List Int :=
  match l with
  | [] => []
  | v :: tl =>
      (if a = 0 ∧ 0 < b then NULL_DATA else v) :: nullRange tl (a - 1) (b - 1)

/-- Number of binary digits of `n` (fuel-driven so that it reduces in the
kernel; the fuel `n` always suffices since `n` halves each step). -/
def bitLenGo : Nat → Nat → Nat
  | 0, _ => 0
  | fuel + 1, n => if n = 0 then 0 else bitLenGo fuel (n / 2) + 1

/-- Number of binary digits of `n` (0 for 0). -/
def bitLen (n : Nat) : Nat := bitLenGo n n

/-- Round `q / 2^s` to the nearest integer, ties to even. -/
def roundShiftEven (q s : Nat) : Nat :=
  if 2 ^ s < 2 * (q % 2 ^ s)
      ∨ (2 * (q % 2 ^ s) = 2 ^ s ∧ (q / 2 ^ s) % 2 = 1) then
    q / 2 ^ s + 1
  else q / 2 ^ s

/-- Round the natural number `q` to an `f64` significand: the result `(m, s)`
represents the value `m * 2^s`, with `m` having at most 53 binary digits
(54 in the carry case `m = 2^53`, still exactly representable). -/
def f64Round (q : Nat) : Nat × Nat :=
  if q < 2 ^ 53 then (q, 0)
  else
    let s := bitLen q - 53
    (roundShiftEven q s, s)

/-- The `f64` significand of the literal `1.2`: the value of `1.2_f64` is
exactly `c12 / 2^52`. -/
def c12 : Nat := 5404319552844595

/-- The growth target of `append`: Rust `(n as f64 * 1.2) as usize`, embedded
exactly. `n` is rounded to `f64`, multiplied by `1.2_f64` with
round-to-nearest-even, and the product is truncated toward zero. -/
def growPolicy (n : Nat) : Nat :=
  let p1 := f64Round n
  let q2 := p1.1 * c12
  let p2 := f64Round q2
  let e := p1.2 + p2.2
  if 52 ≤ e then p2.1 * 2 ^ (e - 52) else p2.1 / 2 ^ (52 - e)

/-- `TextColumn<C>` from `text_column.rs`: the committed maximum element
length, the flat value buffer and the per-row indicator array. -/
structure TextColumn (C : Type) where
  max_str_len : Nat
  values : List C
  indicators : List Int
deriving DecidableEq, Repr

/-- The error type of the fallible constructor (`TooLargeBufferSize`). -/
structure TooLargeBufferSize where
  num_elements : Nat
  element_size : Nat
deriving DecidableEq, Repr

namespace TextColumn

variable {C : Type} [CharElem C]

/-- The batch size: the column does not store it, it is `indicators.len()`
(see `ColumnBuffer::capacity`). -/
def batchSize (col : TextColumn C) : Nat := col.indicators.length

/-- The structural invariant of the buffer:
`values.len() == (max_str_len + 1) * batch_size`. -/
def WF (col : TextColumn C) : Prop :=
  col.values.length = (col.max_str_len + 1) * col.batchSize

instance (col : TextColumn C) : Decidable col.WF := by
  unfold WF; infer_instance

/-- `TextColumn::try_new`. The parameter `allocLimit` is an oracle for the
allocator: `try_reserve_exact` succeeds exactly for requests of at most
`allocLimit` elements (allocation failure is environmental; everything else
is translated from the source). -/
def try_new (allocLimit batch_size max_str_len : Nat) :
    Except TooLargeBufferSize (TextColumn C) :=
  let element_size := max_str_len + 1
  let len := element_size * batch_size
  if allocLimit < len then
    Except.error ⟨batch_size, element_size * szOf C⟩
  else
    Except.ok
      { max_str_len := max_str_len
        values := List.replicate len (defOf C)
        indicators := List.replicate batch_size 0 }

/-- `TextColumn::max_len`. -/
def max_len (col : TextColumn C) : Nat := col.max_str_len

/-- `TextColumn::indicator_at`; `none` is the panic on
`row_index >= batch_size`. -/
def indicator_at (col : TextColumn C) (row_index : Nat) : Option Indicator :=
  (col.indicators[row_index]?).map Indicator.from_isize

/-- `TextColumn::content_length_at`; the outer `none` is the index panic, the
inner `Option` is the Rust return value. -/
def content_length_at (col : TextColumn C) (row_index : Nat) :
    Option (Option Nat) :=
  match col.indicator_at row_index with
  | none => none
  | some Indicator.Null => some none
  | some Indicator.NoTotal => some (some col.max_str_len)
  | some (Indicator.Length length_in_bytes) =>
      some (some (min col.max_str_len (length_in_bytes / szOf C)))

/-- `TextColumn::value_at`; the outer `none` is a panic, the inner `Option`
is the Rust return value (`None` for a null row). -/
def value_at (col : TextColumn C) (row_index : Nat) :
    Option (Option (List C)) :=
  match col.content_length_at row_index with
  | none => none
  | some none => some none
  | some (some length) =>
      match listSlice col.values (row_index * (col.max_str_len + 1)) length with
      | none => none
      | some l => some (some l)

/-- The number of characters `resize_max_str` copies for one preserved row
with indicator entry `ind` (0 for `Null`, clamped to both capacities). -/
def resizeCopyLen (C : Type) [CharElem C] (old_max new_max : Nat)
    (ind : Int) : Nat :=
  match Indicator.from_isize ind with
  | Indicator.Null => 0
  | Indicator.NoTotal => min old_max new_max
  | Indicator.Length num_bytes_len =>
      min (num_bytes_len / szOf C) (min old_max new_max)

/-- The number of rows `resize_max_str` actually migrates: `num_rows`,
additionally clamped by the zip with the indicator iterator and with
`chunks_exact` over the old value buffer (the new buffer always yields
`batch_size` chunks). -/
def rowsCopied (col : TextColumn C) (num_rows : Nat) : Nat :=
  min num_rows
    (min col.indicators.length (col.values.length / (col.max_str_len + 1)))

/-- One row of the new value buffer built by `resize_max_str`: for a migrated
row, the clamped copy of the old row content followed by the zero
initialization of the rest of the chunk; for any other row, the untouched
zero initialization. -/
def resizeRow (col : TextColumn C) (new_max_str_len rows_copied r : Nat) :
    List C :=
  if r < rows_copied then
    (col.values.drop (r * (col.max_str_len + 1))).take
        (resizeCopyLen C col.max_str_len new_max_str_len
          (col.indicators.getD r 0))
      ++ List.replicate
        (new_max_str_len + 1
          - resizeCopyLen C col.max_str_len new_max_str_len
              (col.indicators.getD r 0)) (defOf C)
  else List.replicate (new_max_str_len + 1) (defOf C)

/-- `TextColumn::resize_max_str`: a fresh zero-initialized buffer for the new
stride, with the clamped content of the first `num_rows` rows copied over;
the indicator array is left untouched. -/
def resize_max_str (col : TextColumn C) (new_max_str_len num_rows : Nat) :
    TextColumn C :=
  { max_str_len := new_max_str_len
    values := (List.range col.indicators.length).flatMap
      (resizeRow col new_max_str_len (col.rowsCopied num_rows))
    indicators := col.indicators }

/-- `TextColumn::fill_null`; `none` is the index panic, possible when the
range end exceeds the indicator length. -/
def fill_null (col : TextColumn C) (from_ to_ : Nat) :
    Option (TextColumn C) :=
  if from_ < to_ ∧ col.indicators.length < to_ then none
  else some { col with indicators := nullRange col.indicators from_ to_ }

/-- `TextColumn::set_max_len`: fresh zeroed values for the new stride and
every indicator set to `NULL_DATA` (its `fill_null(0, batch_size)` call can
never panic). -/
def set_max_len (col : TextColumn C) (new_max_len : Nat) : TextColumn C :=
  let batch_size := col.indicators.length
  { max_str_len := new_max_len
    values := List.replicate ((new_max_len + 1) * batch_size) (defOf C)
    indicators := nullRange col.indicators 0 batch_size }

/-- `TextColumn::set_mut`: panics when `length > max_str_len` or the index is
out of bounds; otherwise records the indicator, writes the terminating zero
and exposes the row slice (the caller then fills `[start, start+length)`). -/
def set_mut (col : TextColumn C) (index length : Nat) :
    Option (TextColumn C) :=
  if col.max_str_len < length then none
  else
    match listSet col.indicators index ((length * szOf C : Nat) : Int) with
    | none => none
    | some inds =>
        let start := (col.max_str_len + 1) * index
        match listSet col.values (start + length) (defOf C) with
        | none => none
        | some vals => some { col with indicators := inds, values := vals }

/-- `TextColumn::set_value`: `set_mut` followed by `copy_from_slice` for a
present value, indicator `NULL_DATA` for `None`. -/
def set_value (col : TextColumn C) (index : Nat) (input : Option (List C)) :
    Option (TextColumn C) :=
  match input with
  | some input =>
      match col.set_mut index input.length with
      | none => none
      | some col₁ =>
          match writeSlice col₁.values ((col₁.max_str_len + 1) * index) input with
          | none => none
          | some vals => some { col₁ with values := vals }
  | none =>
      match listSet col.indicators index NULL_DATA with
      | none => none
      | some inds => some { col with indicators := inds }

/-- The write phase of `append` (after any growth): copy the text at the row
offset, write the terminating zero and record the indicator, in source
order. -/
def appendWrite (col₁ : TextColumn C) (index : Nat) (text : List C) :
    Option (TextColumn C) :=
  match writeSlice col₁.values (index * (col₁.max_str_len + 1)) text with
  | none => none
  | some vals =>
      match listSet vals (index * (col₁.max_str_len + 1) + text.length)
          (defOf C) with
      | none => none
      | some vals₂ =>
          match listSet col₁.indicators index
              ((text.length * szOf C : Nat) : Int) with
          | none => none
          | some inds =>
              some { col₁ with values := vals₂, indicators := inds }

/-- `TextColumn::append`: grows via `resize_max_str (growPolicy len) index`
when the text exceeds the current maximum, then copies the text, writes the
terminating zero and records the indicator. -/
def append (col : TextColumn C) (index : Nat) (text : Option (List C)) :
    Option (TextColumn C) :=
  match text with
  | some text =>
      appendWrite
        (if col.max_str_len < text.length then
          col.resize_max_str (growPolicy text.length) index
        else col) index text
  | none =>
      match listSet col.indicators index NULL_DATA with
      | none => none
      | some inds => some { col with indicators := inds }

/-- `TextColumn::raw_value_buffer`; `none` is the slice panic when the
requested prefix exceeds the buffer. -/
def raw_value_buffer (col : TextColumn C) (num_valid_rows : Nat) :
    Option (List C) :=
  if (col.max_str_len + 1) * num_valid_rows ≤ col.values.length then
    some (col.values.take ((col.max_str_len + 1) * num_valid_rows))
  else none

end TextColumn

/-- `TextColumnView`: a read-only pair of valid-row count and column. -/
structure TextColumnView (C : Type) where
  num_rows : Nat
  col : TextColumn C
deriving DecidableEq, Repr

/-- `ColumnBuffer::view` for `TextColumn`. -/
def TextColumn.view {C : Type} (col : TextColumn C) (valid_rows : Nat) :
    TextColumnView C :=
  ⟨valid_rows, col⟩

/-- `TextColumnIt`: iterator state over a text column view. -/
structure TextColumnIt (C : Type) where
  pos : Nat
  num_rows : Nat
  col : TextColumn C
deriving DecidableEq, Repr

namespace TextColumnView

variable {C : Type} [CharElem C]

/-- `TextColumnView::len`. -/
def len (v : TextColumnView C) : Nat := v.num_rows

/-- `TextColumnView::get`: delegates to `TextColumn::value_at` (there is no
bound check against `num_rows` in the source). -/
def get (v : TextColumnView C) (index : Nat) : Option (Option (List C)) :=
  v.col.value_at index

/-- `TextColumnView::iter`. -/
def iter (v : TextColumnView C) : TextColumnIt C :=
  ⟨0, v.num_rows, v.col⟩

/-- `TextColumnView::content_length_at`: panics (`none`) when
`row_index >= num_rows`, otherwise delegates to the column. -/
def content_length_at (v : TextColumnView C) (row_index : Nat) :
    Option (Option Nat) :=
  if v.num_rows ≤ row_index then none
  else v.col.content_length_at row_index

end TextColumnView

namespace TextColumnIt

variable {C : Type} [CharElem C]

/-- `TextColumnIt::next_impl`: `(none, it)` when the iterator is exhausted,
otherwise the item at `pos` (whose own outer `none` would be a panic of
`value_at`) and the advanced state. -/
def next_impl (it : TextColumnIt C) :
    Option (Option (Option (List C))) × TextColumnIt C :=
  if it.pos = it.num_rows then (none, it)
  else (some (it.col.value_at it.pos), { it with pos := it.pos + 1 })

end TextColumnIt

/-- Drives the iterator for at most `fuel` steps, collecting every item it
yields (the finite unfolding of the Rust `Iterator` consumption loop). -/
def emitIter {C : Type} [CharElem C] :
    Nat → TextColumnIt C → List (Option (Option (List C)))
  | 0, _ => []
  | fuel + 1, it =>
      match it.next_impl with
      | (none, _) => []
      | (some x, it₂) => x :: emitIter fuel it₂

/-- `TextColumnWriter`: the column under mutation and the write limit `to_` (Rust field `to`). -/
structure TextColumnWriter (C : Type) where
  column : TextColumn C
  to_ : Nat
deriving DecidableEq, Repr

/-- `TextColumn::writer_n`. -/
def TextColumn.writer_n {C : Type} (col : TextColumn C) (n : Nat) :
    TextColumnWriter C :=
  ⟨col, n⟩

/-- The loop of `TextColumnWriter::write`: calls `set_value` for consecutive
indices starting at `idx`, one item at a time. -/
def writeAll {C : Type} [CharElem C] :
    TextColumn C → Nat → List (Option (List C)) → Option (TextColumn C)
  | col, _, [] => some col
  | col, idx, item :: rest =>
      match col.set_value idx item with
      | none => none
      | some col₂ => writeAll col₂ (idx + 1) rest

namespace TextColumnWriter

variable {C : Type} [CharElem C]

/-- `TextColumnWriter::write`: consumes at most `to` items
(`it.enumerate().take(self.to)`) and `set_value`s each one. -/
def write (w : TextColumnWriter C) (items : List (Option (List C))) :
    Option (TextColumnWriter C) :=
  (writeAll w.column 0 (items.take w.to_)).map fun c => ⟨c, w.to_⟩

/-- `TextColumnWriter::max_len`. -/
def max_len (w : TextColumnWriter C) : Nat := w.column.max_len

/-- `TextColumnWriter::set_max_len`: unchecked pass-through. -/
def set_max_len (w : TextColumnWriter C) (new_max_len : Nat) :
    TextColumnWriter C :=
  ⟨w.column.set_max_len new_max_len, w.to_⟩

/-- `TextColumnWriter::resize_max_str`: unchecked pass-through. -/
def resize_max_str (w : TextColumnWriter C) (new_max_str_len num_rows : Nat) :
    TextColumnWriter C :=
  ⟨w.column.resize_max_str new_max_str_len num_rows, w.to_⟩

/-- `TextColumnWriter::set_value`: unchecked pass-through. -/
def set_value (w : TextColumnWriter C) (index : Nat)
    (value : Option (List C)) : Option (TextColumnWriter C) :=
  (w.column.set_value index value).map fun c => ⟨c, w.to_⟩

/-- `TextColumnWriter::append`: unchecked pass-through. -/
def append (w : TextColumnWriter C) (index : Nat)
    (text : Option (List C)) : Option (TextColumnWriter C) :=
  (w.column.append index text).map fun c => ⟨c, w.to_⟩

/-- `TextColumnWriter::set_mut`: unchecked pass-through. -/
def set_mut (w : TextColumnWriter C) (index length : Nat) :
    Option (TextColumnWriter C) :=
  (w.column.set_mut index length).map fun c => ⟨c, w.to_⟩

end TextColumnWriter

/-- The row `r` of a flat value buffer: the `max_len + 1` character units
starting at the row base offset (used to state frame properties). -/
def rowAt {C : Type} (col : TextColumn C) (r : Nat) : List C :=
  (col.values.drop (r * (col.max_str_len + 1))).take (col.max_str_len + 1)

/-! ## Concrete sample data for witnesses and counterexamples -/

/-- The zero (default) `u8` character. -/
def z8 : U8T := ⟨0⟩

/-- A nonzero `u8` character. -/
def a8 : U8T := ⟨1⟩

/-- Another nonzero `u8` character. -/
def b8 : U8T := ⟨2⟩

/-- A one-row column, `max_str_len = 1`, row 0 holding the empty string. -/
def sampleSingle : TextColumn U8T := ⟨1, [z8, z8], [0]⟩

/-- A two-row column with `max_str_len = 1`, all rows empty. -/
def sampleTwoRows : TextColumn U8T := ⟨1, [z8, z8, z8, z8], [0, 0]⟩

/-- A one-row column, `max_str_len = 1`, whose row 0 holds a truncated value:
the indicator reports 5 bytes, the buffer holds only 1 character. -/
def sampleTrunc : TextColumn U8T := ⟨1, [a8, z8], [5]⟩

/-- A one-row column, `max_str_len = 1`, whose row 0 holds a truncated value:
the indicator reports 4 bytes, the buffer holds only 1 character. -/
def sampleResize : TextColumn U8T := ⟨1, [a8, z8], [4]⟩

/-- A one-row column with `max_str_len = 0` (only the terminator slot). -/
def sampleEmptyMax0 : TextColumn U8T := ⟨0, [z8], [7]⟩

/-! ## List-level helper lemmas -/

theorem szOf_pos (C : Type) [inst : CharElem C] : 0 < szOf C :=
  @CharElem.size_pos C inst

theorem nullRange_length (l : List Int) (a b : Nat) :
    (nullRange l a b).length = l.length := by
  induction l generalizing a b with
  | nil => rfl
  | cons v tl ih => simp [nullRange, ih]

theorem listSet_eq_some {xs ys : List α} {i : Nat} {v : α}
    (h : listSet xs i v = some ys) : i < xs.length ∧ ys = xs.set i v := by
  unfold listSet at h
  split at h
  · refine ⟨by assumption, ?_⟩
    injection h with h2
    exact h2.symm
  · cases h

theorem listSet_some {xs : List α} {i : Nat} (v : α) (h : i < xs.length) :
    listSet xs i v = some (xs.set i v) := by
  unfold listSet
  simp [h]

theorem writeSlice_some {xs : List α} {start : Nat} (data : List α)
    (h : start + data.length ≤ xs.length) :
    writeSlice xs start data
      = some (xs.take start ++ data ++ xs.drop (start + data.length)) := by
  unfold writeSlice
  simp [h]

theorem writeSlice_length {xs : List α} {start : Nat} {data out : List α}
    (h : writeSlice xs start data = some out) : out.length = xs.length := by
  unfold writeSlice at h
  split at h
  · injection h with h2
    subst h2
    simp
    omega
  · exact absurd h (by simp)

theorem writeSlice_getElem? {xs : List α} {start : Nat} {data out : List α}
    (h : writeSlice xs start data = some out) (p : Nat) :
    out[p]? = if p < start then xs[p]?
      else if p < start + data.length then data[p - start]?
      else xs[p]? := by
  unfold writeSlice at h
  split at h
  case isTrue hb =>
    injection h with h2
    subst h2
    have hts : (xs.take start).length = start := by simp; omega
    have hAB : (xs.take start ++ data).length = start + data.length := by
      simp [hts]
    by_cases h1 : p < start
    · rw [if_pos h1, List.getElem?_append, hAB, if_pos (by omega),
        List.getElem?_append, hts, if_pos h1, List.getElem?_take, if_pos h1]
    · by_cases h2 : p < start + data.length
      · rw [if_neg h1, if_pos h2, List.getElem?_append, hAB, if_pos h2,
          List.getElem?_append, hts, if_neg h1]
      · rw [if_neg h1, if_neg h2, List.getElem?_append, hAB, if_neg h2,
          List.getElem?_drop]
        congr 1
        omega
  · cases h

theorem slice_eq_of_getElem? (xs : List α) (off L : Nat) (data : List α)
    (hdata : data.length = L) (hbound : off + L ≤ xs.length)
    (h : ∀ j, j < L → xs[off + j]? = data[j]?) :
    (xs.drop off).take L = data := by
  apply List.ext_getElem?
  intro j
  rw [List.getElem?_take]
  by_cases hj : j < L
  · rw [if_pos hj, List.getElem?_drop, h j hj]
  · rw [if_neg hj]
    symm
    rw [List.getElem?_eq_none_iff]
    omega

theorem flatMap_range_length (n k : Nat) (f : Nat → List α)
    (h : ∀ i, i < n → (f i).length = k) :
    ((List.range n).flatMap f).length = n * k := by
  induction n with
  | zero => simp
  | succ n ih =>
      rw [List.range_succ, List.flatMap_append]
      simp only [List.length_append, List.flatMap_cons, List.flatMap_nil,
        List.append_nil]
      rw [ih (fun i hi => h i (Nat.lt_succ_of_lt hi)), h n (Nat.lt_succ_self n)]
      ring

theorem flatMap_range_getElem? (n k : Nat) (f : Nat → List α)
    (h : ∀ i, i < n → (f i).length = k) (i j : Nat) (hi : i < n) (hj : j < k) :
    ((List.range n).flatMap f)[i * k + j]? = (f i)[j]? := by
  induction n with
  | zero => omega
  | succ n ih =>
      rw [List.range_succ, List.flatMap_append]
      have hpre : ((List.range n).flatMap f).length = n * k :=
        flatMap_range_length n k f (fun i hi => h i (Nat.lt_succ_of_lt hi))
      by_cases hin : i < n
      · rw [List.getElem?_append]
        rw [if_pos (by rw [hpre]; calc i * k + j < i * k + k := by omega
              _ = (i + 1) * k := by ring
              _ ≤ n * k := Nat.mul_le_mul_right k hin)]
        exact ih (fun i hi => h i (Nat.lt_succ_of_lt hi)) hin
      · have hieq : i = n := by omega
        subst hieq
        rw [List.getElem?_append_right (by rw [hpre]; omega)]
        rw [hpre]
        simp only [List.flatMap_cons, List.flatMap_nil, List.append_nil]
        congr 1
        omega

/-! ## Row-offset arithmetic -/

theorem row_bound_lt (maxLen b r L : Nat) (hr : r < b) (hL : L ≤ maxLen) :
    r * (maxLen + 1) + L < (maxLen + 1) * b := by
  have h1 : (r + 1) * (maxLen + 1) ≤ b * (maxLen + 1) :=
    Nat.mul_le_mul_right (maxLen + 1) hr
  have h2 : (r + 1) * (maxLen + 1) = r * (maxLen + 1) + (maxLen + 1) := by ring
  have h3 : b * (maxLen + 1) = (maxLen + 1) * b := Nat.mul_comm b (maxLen + 1)
  omega

theorem row_bound_le (maxLen b r L : Nat) (hr : r < b) (hL : L ≤ maxLen) :
    r * (maxLen + 1) + L ≤ (maxLen + 1) * b :=
  Nat.le_of_lt (row_bound_lt maxLen b r L hr hL)

/-! ## Indicator lemmas -/

theorem from_isize_natCast (n : Nat) :
    Indicator.from_isize ((n : Nat) : Int) = Indicator.Length n := by
  unfold Indicator.from_isize NULL_DATA NO_TOTAL
  rw [if_neg (by omega), if_neg (by omega)]
  simp

theorem from_isize_null : Indicator.from_isize NULL_DATA = Indicator.Null := by
  unfold Indicator.from_isize
  rw [if_pos rfl]

/-! ## Reading lemmas -/

theorem indicator_at_set {C : Type} [CharElem C] (col : TextColumn C)
    (i : Nat) (v : Int) (hi : i < col.batchSize) :
    TextColumn.indicator_at
      { col with indicators := col.indicators.set i v } i
      = some (Indicator.from_isize v) := by
  unfold TextColumn.indicator_at
  simp only []
  rw [List.getElem?_set_self (by exact hi)]
  simp [List.getElem?_eq_getElem hi]

theorem content_length_at_of_indicator {C : Type} [CharElem C]
    {col : TextColumn C} {r : Nat} {ind : Indicator}
    (h : col.indicator_at r = some ind) :
    (ind = Indicator.Null → col.content_length_at r = some none) ∧
    (ind = Indicator.NoTotal →
      col.content_length_at r = some (some col.max_str_len)) ∧
    (∀ nb, ind = Indicator.Length nb →
      col.content_length_at r
        = some (some (min col.max_str_len (nb / szOf C)))) := by
  unfold TextColumn.content_length_at
  rw [h]
  refine ⟨?_, ?_, ?_⟩
  · rintro rfl; rfl
  · rintro rfl; rfl
  · rintro nb rfl; rfl

theorem content_length_at_null {C : Type} [CharElem C]
    {col : TextColumn C} {r : Nat}
    (h : col.indicator_at r = some Indicator.Null) :
    col.content_length_at r = some none :=
  (content_length_at_of_indicator h).1 rfl

theorem content_length_at_length {C : Type} [CharElem C]
    {col : TextColumn C} {r nb : Nat}
    (h : col.indicator_at r = some (Indicator.Length nb)) :
    col.content_length_at r = some (some (min col.max_str_len (nb / szOf C))) :=
  (content_length_at_of_indicator h).2.2 nb rfl

theorem value_at_of_length {C : Type} [CharElem C] {col : TextColumn C}
    {r L : Nat} (hc : col.content_length_at r = some (some L))
    (hb : r * (col.max_str_len + 1) + L ≤ col.values.length) :
    col.value_at r
      = some (some ((col.values.drop (r * (col.max_str_len + 1))).take L)) := by
  unfold TextColumn.value_at
  rw [hc]
  simp [listSlice, hb]

theorem value_at_null {C : Type} [CharElem C] {col : TextColumn C} {r : Nat}
    (hc : col.content_length_at r = some none) :
    col.value_at r = some none := by
  unfold TextColumn.value_at
  rw [hc]

theorem value_at_none_inv {C : Type} [CharElem C] {col : TextColumn C}
    {r : Nat} (h : col.value_at r = some none) :
    col.indicator_at r = some Indicator.Null := by
  unfold TextColumn.value_at at h
  rcases hc : col.content_length_at r with _ | lo
  · rw [hc] at h
    cases h
  · rcases lo with _ | L
    · unfold TextColumn.content_length_at at hc
      rcases hind : col.indicator_at r with _ | ind
      · rw [hind] at hc
        cases hc
      · rw [hind] at hc
        cases ind with
        | Null => rfl
        | NoTotal => simp at hc
        | Length nb => simp at hc
    · rw [hc] at h
      rcases hs : listSlice col.values (r * (col.max_str_len + 1)) L
          with _ | l
      · simp [hs] at h
      · simp [hs] at h

/-! ## Mutation lemmas: set_mut, set_value -/

theorem set_mut_spec {C : Type} [CharElem C] (col : TextColumn C)
    (i len : Nat) (hwf : col.WF) (hi : i < col.batchSize)
    (hlen : len ≤ col.max_str_len) :
    col.set_mut i len
      = some { col with
          indicators := col.indicators.set i ((len * szOf C : Nat) : Int)
          values := col.values.set ((col.max_str_len + 1) * i + len)
            (defOf C) } := by
  have hvb : (col.max_str_len + 1) * i + len < col.values.length := by
    rw [hwf]
    have := row_bound_lt col.max_str_len col.batchSize i len hi hlen
    have hc : (col.max_str_len + 1) * i = i * (col.max_str_len + 1) :=
      Nat.mul_comm _ _
    omega
  unfold TextColumn.set_mut
  rw [if_neg (by omega)]
  rw [listSet_some _ hi]
  simp only []
  rw [listSet_some _ (by simpa using hvb)]

theorem set_value_some_spec {C : Type} [CharElem C] (col : TextColumn C)
    (i : Nat) (input : List C) (hwf : col.WF) (hi : i < col.batchSize)
    (hlen : input.length ≤ col.max_str_len) :
    ∃ col₂, col.set_value i (some input) = some col₂ ∧
      col₂.max_str_len = col.max_str_len ∧
      col₂.indicators
        = col.indicators.set i ((input.length * szOf C : Nat) : Int) ∧
      col₂.values.length = col.values.length ∧
      (∀ j, j < input.length →
        col₂.values[(col.max_str_len + 1) * i + j]? = input[j]?) ∧
      (∀ p, p < (col.max_str_len + 1) * i
          ∨ (col.max_str_len + 1) * (i + 1) ≤ p →
        col₂.values[p]? = col.values[p]?) := by
  have hsm := set_mut_spec col i input.length hwf hi hlen
  have hvb : (col.max_str_len + 1) * i + input.length < col.values.length := by
    rw [hwf]
    have := row_bound_lt col.max_str_len col.batchSize i input.length hi hlen
    have hc : (col.max_str_len + 1) * i = i * (col.max_str_len + 1) :=
      Nat.mul_comm _ _
    omega
  have hws : writeSlice
      (col.values.set ((col.max_str_len + 1) * i + input.length) (defOf C))
      ((col.max_str_len + 1) * i) input
      = some ((col.values.set ((col.max_str_len + 1) * i + input.length)
            (defOf C)).take ((col.max_str_len + 1) * i)
          ++ input
          ++ (col.values.set ((col.max_str_len + 1) * i + input.length)
            (defOf C)).drop ((col.max_str_len + 1) * i + input.length)) :=
    writeSlice_some input (by simp; omega)
  have hsplit : (col.max_str_len + 1) * (i + 1)
      = (col.max_str_len + 1) * i + (col.max_str_len + 1) := by ring
  refine ⟨{ col with
      indicators := col.indicators.set i ((input.length * szOf C : Nat) : Int)
      values := (col.values.set ((col.max_str_len + 1) * i + input.length)
            (defOf C)).take ((col.max_str_len + 1) * i)
          ++ input
          ++ (col.values.set ((col.max_str_len + 1) * i + input.length)
            (defOf C)).drop ((col.max_str_len + 1) * i + input.length) },
    ?_, rfl, rfl, ?_, ?_, ?_⟩
  · unfold TextColumn.set_value
    simp only [hsm, hws]
  · have := writeSlice_length hws
    simp only at this ⊢
    rw [this]
    simp
  · intro j hj
    simp only []
    rw [writeSlice_getElem? hws]
    rw [if_neg (by omega), if_pos (by omega)]
    congr 1
    omega
  · intro p hp
    simp only []
    rw [writeSlice_getElem? hws]
    have hne : p ≠ (col.max_str_len + 1) * i + input.length := by omega
    rcases hp with hp | hp
    · rw [if_pos hp, List.getElem?_set_ne (by omega)]
    · rw [if_neg (by omega), if_neg (by omega),
        List.getElem?_set_ne (by omega)]

theorem set_value_none_spec {C : Type} [CharElem C] (col : TextColumn C)
    (i : Nat) (hi : i < col.batchSize) :
    col.set_value i none
      = some { col with indicators := col.indicators.set i NULL_DATA } := by
  unfold TextColumn.set_value
  rw [listSet_some _ hi]

theorem indicator_at_of_set_eq {C : Type} [CharElem C] {col₂ : TextColumn C}
    {l : List Int} {i : Nat} {v : Int}
    (h : col₂.indicators = l.set i v) (hi : i < l.length) :
    col₂.indicator_at i = some (Indicator.from_isize v) := by
  unfold TextColumn.indicator_at
  rw [h]
  simp [List.getElem?_set_self, hi]

theorem value_at_of_row_write {C : Type} [CharElem C] (col₂ : TextColumn C)
    (i : Nat) (input : List C)
    (hlen2 : input.length ≤ col₂.max_str_len)
    (hwf2 : col₂.WF)
    (hib : i < col₂.batchSize)
    (hind2 : col₂.indicator_at i
      = some (Indicator.Length (input.length * szOf C)))
    (hmid : ∀ j, j < input.length →
      col₂.values[(col₂.max_str_len + 1) * i + j]? = input[j]?) :
    col₂.value_at i = some (some input)
      ∧ col₂.content_length_at i = some (some input.length) := by
  have hc := content_length_at_length hind2
  rw [Nat.mul_div_cancel _ (szOf_pos C), Nat.min_eq_right hlen2] at hc
  have hb : i * (col₂.max_str_len + 1) + input.length ≤ col₂.values.length := by
    rw [hwf2]
    exact row_bound_le _ _ _ _ hib hlen2
  refine ⟨?_, hc⟩
  rw [value_at_of_length hc hb]
  congr 2
  refine slice_eq_of_getElem? _ _ _ _ rfl hb ?_
  intro j hj
  rw [show i * (col₂.max_str_len + 1) + j = (col₂.max_str_len + 1) * i + j by
    ring]
  exact hmid j hj

theorem set_value_roundtrip {C : Type} [CharElem C] (col : TextColumn C)
    (i : Nat) (input : List C) (hwf : col.WF) (hi : i < col.batchSize)
    (hlen : input.length ≤ col.max_str_len) :
    ∃ col₂, col.set_value i (some input) = some col₂ ∧
      col₂.value_at i = some (some input) ∧
      col₂.content_length_at i = some (some input.length) ∧
      col₂.indicator_at i
        = some (Indicator.Length (input.length * szOf C)) ∧
      col₂.max_str_len = col.max_str_len ∧
      col₂.indicators
        = col.indicators.set i ((input.length * szOf C : Nat) : Int) ∧
      col₂.WF ∧ col₂.batchSize = col.batchSize := by
  obtain ⟨col₂, heq, hmax, hinds, hvlen, hmid, _⟩ :=
    set_value_some_spec col i input hwf hi hlen
  have hbs : col₂.batchSize = col.batchSize := by
    unfold TextColumn.batchSize
    rw [hinds, List.length_set]
  have hwf2 : col₂.WF := by
    unfold TextColumn.WF
    rw [hvlen, hmax, hbs, hwf]
  have hind2 : col₂.indicator_at i
      = some (Indicator.Length (input.length * szOf C)) := by
    rw [indicator_at_of_set_eq hinds hi, from_isize_natCast]
  have hv := value_at_of_row_write col₂ i input (by omega)
    hwf2 (by omega) hind2 (by rw [hmax]; exact hmid)
  exact ⟨col₂, heq, hv.1, hv.2, hind2, hmax, hinds, hwf2, hbs⟩

/-! ## Mutation lemmas: appendWrite -/

theorem appendWrite_spec {C : Type} [CharElem C] (col₁ : TextColumn C)
    (i : Nat) (text : List C) (hwf : col₁.WF) (hi : i < col₁.batchSize)
    (hlen : text.length ≤ col₁.max_str_len) :
    ∃ col₂, TextColumn.appendWrite col₁ i text = some col₂ ∧
      col₂.value_at i = some (some text) ∧
      col₂.content_length_at i = some (some text.length) ∧
      col₂.max_str_len = col₁.max_str_len ∧
      col₂.indicators
        = col₁.indicators.set i ((text.length * szOf C : Nat) : Int) ∧
      col₂.WF ∧ col₂.batchSize = col₁.batchSize := by
  have hble : i * (col₁.max_str_len + 1) + text.length
      ≤ col₁.values.length := by
    rw [hwf]
    exact row_bound_le _ _ _ _ hi hlen
  have hblt : i * (col₁.max_str_len + 1) + text.length
      < col₁.values.length := by
    rw [hwf]
    exact row_bound_lt _ _ _ _ hi hlen
  have hws : writeSlice col₁.values (i * (col₁.max_str_len + 1)) text
      = some (col₁.values.take (i * (col₁.max_str_len + 1))
          ++ text
          ++ col₁.values.drop (i * (col₁.max_str_len + 1) + text.length)) :=
    writeSlice_some text hble
  have hwlen := writeSlice_length hws
  obtain ⟨V, hVeq⟩ : ∃ V, (col₁.values.take (i * (col₁.max_str_len + 1))
        ++ text
        ++ col₁.values.drop (i * (col₁.max_str_len + 1) + text.length)).set
      (i * (col₁.max_str_len + 1) + text.length) (defOf C) = V := ⟨_, rfl⟩
  have hVlen : V.length = col₁.values.length := by
    rw [← hVeq, List.length_set]
    exact hwlen
  have hVmid : ∀ j, j < text.length →
      V[(col₁.max_str_len + 1) * i + j]? = text[j]? := by
    intro j hj
    rw [← hVeq,
      show (col₁.max_str_len + 1) * i = i * (col₁.max_str_len + 1) from
        Nat.mul_comm _ _,
      List.getElem?_set_ne (by omega), writeSlice_getElem? hws,
      if_neg (by omega), if_pos (by omega)]
    congr 1
    omega
  have hwf2 : TextColumn.WF
      (⟨col₁.max_str_len, V,
        col₁.indicators.set i ((text.length * szOf C : Nat) : Int)⟩ :
        TextColumn C) := by
    unfold TextColumn.WF TextColumn.batchSize
    simp only [List.length_set]
    rw [hVlen]
    exact hwf
  have hbs2 : TextColumn.batchSize
      (⟨col₁.max_str_len, V,
        col₁.indicators.set i ((text.length * szOf C : Nat) : Int)⟩ :
        TextColumn C) = col₁.batchSize := by
    unfold TextColumn.batchSize
    simp [List.length_set]
  have hind2 : TextColumn.indicator_at
      (⟨col₁.max_str_len, V,
        col₁.indicators.set i ((text.length * szOf C : Nat) : Int)⟩ :
        TextColumn C) i
      = some (Indicator.Length (text.length * szOf C)) := by
    rw [indicator_at_of_set_eq
      (show (⟨col₁.max_str_len, V,
          col₁.indicators.set i ((text.length * szOf C : Nat) : Int)⟩ :
          TextColumn C).indicators
        = col₁.indicators.set i ((text.length * szOf C : Nat) : Int)
        from rfl) hi, from_isize_natCast]
  have hv := value_at_of_row_write
    (⟨col₁.max_str_len, V,
      col₁.indicators.set i ((text.length * szOf C : Nat) : Int)⟩ :
      TextColumn C) i text hlen hwf2 (by rw [hbs2]; exact hi) hind2 hVmid
  refine ⟨⟨col₁.max_str_len, V,
      col₁.indicators.set i ((text.length * szOf C : Nat) : Int)⟩,
    ?_, hv.1, hv.2, rfl, rfl, hwf2, hbs2⟩
  unfold TextColumn.appendWrite
  have hset : listSet (col₁.values.take (i * (col₁.max_str_len + 1))
        ++ text
        ++ col₁.values.drop (i * (col₁.max_str_len + 1) + text.length))
      (i * (col₁.max_str_len + 1) + text.length) (defOf C)
      = some V := by
    rw [listSet_some _ (by rw [hwlen]; exact hblt)]
    rw [hVeq]
  have hsetind : listSet col₁.indicators i
      ((text.length * szOf C : Nat) : Int)
      = some (col₁.indicators.set i ((text.length * szOf C : Nat) : Int)) :=
    listSet_some _ hi
  simp only [hws, hset, hsetind]

/-! ## Resize lemmas -/

theorem resizeCopyLen_le (C : Type) [CharElem C] (o n : Nat) (ind : Int) :
    TextColumn.resizeCopyLen C o n ind ≤ o ∧ TextColumn.resizeCopyLen C o n ind ≤ n := by
  unfold TextColumn.resizeCopyLen
  split <;> constructor <;> omega

theorem resizeRow_length {C : Type} [CharElem C] (col : TextColumn C)
    (new rc r : Nat) (hrc : rc ≤ col.values.length / (col.max_str_len + 1)) :
    (TextColumn.resizeRow col new rc r).length = new + 1 := by
  unfold TextColumn.resizeRow
  split
  case isTrue h =>
    have hcl := resizeCopyLen_le C col.max_str_len new (col.indicators.getD r 0)
    have hchunk : (r + 1) * (col.max_str_len + 1) ≤ col.values.length := by
      have hr1 : r + 1 ≤ col.values.length / (col.max_str_len + 1) := by omega
      exact (Nat.le_div_iff_mul_le (by omega)).mp hr1
    have hexp : (r + 1) * (col.max_str_len + 1)
        = r * (col.max_str_len + 1) + (col.max_str_len + 1) := by ring
    simp only [List.length_append, List.length_take, List.length_drop,
      List.length_replicate]
    omega
  case isFalse => simp

theorem rowsCopied_le {C : Type} [CharElem C] (col : TextColumn C) (k : Nat) :
    col.rowsCopied k ≤ col.values.length / (col.max_str_len + 1) := by
  unfold TextColumn.rowsCopied
  omega

theorem resize_indicators {C : Type} [CharElem C] (col : TextColumn C)
    (new k : Nat) : (col.resize_max_str new k).indicators = col.indicators :=
  rfl

theorem indicator_at_resize {C : Type} [CharElem C] (col : TextColumn C)
    (new k r : Nat) :
    (col.resize_max_str new k).indicator_at r = col.indicator_at r :=
  rfl

theorem resize_values_length {C : Type} [CharElem C] (col : TextColumn C)
    (new k : Nat) :
    (col.resize_max_str new k).values.length = (new + 1) * col.batchSize := by
  unfold TextColumn.resize_max_str
  simp only []
  rw [flatMap_range_length _ (new + 1) _
    (fun r _ => resizeRow_length col new _ r (rowsCopied_le col k))]
  exact Nat.mul_comm _ _

theorem resize_WF {C : Type} [CharElem C] (col : TextColumn C) (new k : Nat) :
    (col.resize_max_str new k).WF := by
  unfold TextColumn.WF
  rw [resize_values_length]
  rfl

theorem resize_values_getElem? {C : Type} [CharElem C] (col : TextColumn C)
    (new k r j : Nat) (hr : r < col.batchSize) (hj : j < new + 1) :
    (col.resize_max_str new k).values[r * (new + 1) + j]?
      = (TextColumn.resizeRow col new (col.rowsCopied k) r)[j]? := by
  unfold TextColumn.resize_max_str
  simp only []
  exact flatMap_range_getElem? _ (new + 1) _
    (fun i _ => resizeRow_length col new _ i (rowsCopied_le col k)) r j hr hj

theorem resize_preserves_null {C : Type} [CharElem C] (col : TextColumn C)
    (new k r : Nat) (hind : col.indicator_at r = some Indicator.Null) :
    (col.resize_max_str new k).value_at r = some none
      ∧ col.value_at r = some none := by
  constructor
  · exact value_at_null (content_length_at_null
      ((indicator_at_resize col new k r).trans hind))
  · exact value_at_null (content_length_at_null hind)

theorem getD_of_indicator {C : Type} [CharElem C] {col : TextColumn C}
    {r : Nat} {ind : Indicator} (h : col.indicator_at r = some ind) :
    Indicator.from_isize (col.indicators.getD r 0) = ind := by
  unfold TextColumn.indicator_at at h
  rcases hg : col.indicators[r]? with _ | w
  · rw [hg] at h
    cases h
  · rw [hg] at h
    rw [List.getD_eq_getElem?_getD, hg]
    injection h

theorem resize_preserves_length_row {C : Type} [CharElem C]
    (col : TextColumn C) (new k r nb : Nat) (hwf : col.WF) (hrk : r < k)
    (hrb : r < col.batchSize)
    (hind : col.indicator_at r = some (Indicator.Length nb))
    (h1 : nb / szOf C ≤ col.max_str_len) (h2 : nb / szOf C ≤ new) :
    (col.resize_max_str new k).value_at r = col.value_at r := by
  have hchunks : col.values.length / (col.max_str_len + 1) = col.batchSize := by
    rw [hwf]
    exact Nat.mul_div_cancel_left _ (by omega)
  have hrc : r < col.rowsCopied k := by
    unfold TextColumn.rowsCopied
    unfold TextColumn.batchSize at hrb hchunks
    omega
  have hgetD : Indicator.from_isize (col.indicators.getD r 0)
      = Indicator.Length nb := getD_of_indicator hind
  have hcl : TextColumn.resizeCopyLen C col.max_str_len new (col.indicators.getD r 0)
      = nb / szOf C := by
    unfold TextColumn.resizeCopyLen
    rw [hgetD]
    simp only []
    omega
  -- content lengths on both sides
  have hcb : col.content_length_at r = some (some (nb / szOf C)) := by
    rw [content_length_at_length hind, Nat.min_eq_right h1]
  have hca : (col.resize_max_str new k).content_length_at r
      = some (some (nb / szOf C)) := by
    rw [content_length_at_length ((indicator_at_resize col new k r).trans hind)]
    rw [show (col.resize_max_str new k).max_str_len = new from rfl,
      Nat.min_eq_right h2]
  -- row-span bounds
  have hexp : (r + 1) * (col.max_str_len + 1)
      = r * (col.max_str_len + 1) + (col.max_str_len + 1) := by ring
  have hspan : (r + 1) * (col.max_str_len + 1) ≤ col.values.length := by
    rw [hwf]
    calc (r + 1) * (col.max_str_len + 1)
        ≤ col.batchSize * (col.max_str_len + 1) :=
          Nat.mul_le_mul_right _ hrb
      _ = (col.max_str_len + 1) * col.batchSize := Nat.mul_comm _ _
  have hbb : r * (col.max_str_len + 1) + nb / szOf C ≤ col.values.length := by
    omega
  have hba : r * (new + 1) + nb / szOf C
      ≤ (col.resize_max_str new k).values.length := by
    rw [resize_values_length]
    exact row_bound_le _ _ _ _ hrb h2
  rw [value_at_of_length hcb hbb, value_at_of_length hca hba]
  show _ = some (some _)
  congr 2
  refine slice_eq_of_getElem? _ _ _ _ ?_ hba ?_
  · simp only [List.length_take, List.length_drop]
    omega
  · intro j hj
    rw [show (col.resize_max_str new k).max_str_len = new from rfl]
    rw [resize_values_getElem? col new k r j hrb (by omega)]
    unfold TextColumn.resizeRow
    rw [if_pos hrc, hcl]
    rw [List.getElem?_append, if_pos (by
      simp only [List.length_take, List.length_drop]
      omega)]

/-! ## Growth policy lemmas -/

theorem bitLenGo_zero (f : Nat) : bitLenGo f 0 = 0 := by
  cases f <;> rfl

theorem bitLenGo_fuel (f1 : Nat) : ∀ f2 n, n ≤ f1 → n ≤ f2 →
    bitLenGo f1 n = bitLenGo f2 n := by
  induction f1 with
  | zero =>
      intro f2 n h1 h2
      have hn : n = 0 := by omega
      subst hn
      rw [bitLenGo_zero, bitLenGo_zero]
  | succ f1 ih =>
      intro f2 n h1 h2
      rcases Nat.eq_zero_or_pos n with hn | hn
      · subst hn
        rw [bitLenGo_zero, bitLenGo_zero]
      · rcases f2 with _ | f2
        · omega
        · show (if n = 0 then 0 else bitLenGo f1 (n / 2) + 1)
            = (if n = 0 then 0 else bitLenGo f2 (n / 2) + 1)
          rw [if_neg (by omega), if_neg (by omega),
            ih f2 (n / 2) (by omega) (by omega)]

theorem bitLen_succ (n : Nat) (h : n ≠ 0) : bitLen n = bitLen (n / 2) + 1 := by
  unfold bitLen
  rcases n with _ | m
  · omega
  · show (if m + 1 = 0 then 0 else bitLenGo m ((m + 1) / 2) + 1) = _
    rw [if_neg (by omega)]
    rw [bitLenGo_fuel m ((m + 1) / 2) ((m + 1) / 2) (by omega) (by omega)]

theorem lt_two_pow_bitLen (n : Nat) : n < 2 ^ bitLen n := by
  induction n using Nat.strong_induction_on with
  | _ n ih =>
    rcases Nat.eq_zero_or_pos n with hn | hn
    · subst hn
      rw [show bitLen 0 = 0 from rfl]
      omega
    · rw [bitLen_succ n (by omega), pow_succ]
      have := ih (n / 2) (by omega)
      omega

theorem two_pow_bitLen_le (n : Nat) : n ≠ 0 → 2 ^ (bitLen n - 1) ≤ n := by
  induction n using Nat.strong_induction_on with
  | _ n ih =>
    intro h
    rcases Nat.lt_or_ge n 2 with hn | hn
    · have hone : n = 1 := by omega
      subst hone
      rw [show bitLen 1 = 1 from rfl]
      omega
    · rw [bitLen_succ n (by omega)]
      have h2 : n / 2 ≠ 0 := by omega
      have ih2 := ih (n / 2) (by omega) h2
      have hb1 : bitLen (n / 2) ≠ 0 := by
        intro h0
        have hlt := lt_two_pow_bitLen (n / 2)
        rw [h0, pow_zero] at hlt
        omega
      have hpow : 2 ^ bitLen (n / 2) = 2 ^ (bitLen (n / 2) - 1) * 2 := by
        rw [← pow_succ]
        congr 1
        omega
      have hgoal : 2 ^ bitLen (n / 2) ≤ n := by
        rw [hpow]
        omega
      simpa using hgoal

theorem roundShiftEven_lb (q s : Nat) :
    2 * q ≤ 2 ^ s * (2 * roundShiftEven q s + 1) := by
  have hpos : 0 < 2 ^ s := pow_pos (by norm_num) s
  have hdm := Nat.div_add_mod q (2 ^ s)
  have hmod : q % 2 ^ s < 2 ^ s := Nat.mod_lt _ hpos
  unfold roundShiftEven
  split
  case isTrue h =>
    have e : 2 ^ s * (2 * (q / 2 ^ s + 1) + 1)
        = 2 ^ s * (q / 2 ^ s) * 2 + 3 * 2 ^ s := by ring
    omega
  case isFalse h =>
    push_neg at h
    have e : 2 ^ s * (2 * (q / 2 ^ s) + 1)
        = 2 ^ s * (q / 2 ^ s) * 2 + 2 ^ s := by ring
    omega

theorem f64Round_lb (q : Nat) :
    (2 ^ 53 - 1) * q ≤ 2 ^ 53 * ((f64Round q).1 * 2 ^ (f64Round q).2) := by
  unfold f64Round
  split
  case isTrue h =>
    simp only [pow_zero, mul_one]
    exact Nat.mul_le_mul_right q (by omega)
  case isFalse h =>
    simp only []
    have h53 : (0 : Nat) < 2 ^ 53 := by norm_num
    have hq0 : q ≠ 0 := by omega
    have hbl : 54 ≤ bitLen q := by
      by_contra hcon
      push_neg at hcon
      have hlt := lt_two_pow_bitLen q
      have hp : 2 ^ bitLen q ≤ 2 ^ 53 :=
        Nat.pow_le_pow_right (by norm_num) (by omega)
      omega
    have hB : 2 ^ (52 + (bitLen q - 53)) ≤ q := by
      rw [show 52 + (bitLen q - 53) = bitLen q - 1 from by omega]
      exact two_pow_bitLen_le q hq0
    have hA := roundShiftEven_lb q (bitLen q - 53)
    have hA2 : 2 ^ 52 * (2 * q)
        ≤ 2 ^ 52 * (2 ^ (bitLen q - 53)
          * (2 * roundShiftEven q (bitLen q - 53) + 1)) :=
      Nat.mul_le_mul_left _ hA
    have e1 : 2 ^ 52 * (2 ^ (bitLen q - 53)
          * (2 * roundShiftEven q (bitLen q - 53) + 1))
        = 2 * (2 ^ 52 * 2 ^ (bitLen q - 53)
            * roundShiftEven q (bitLen q - 53))
          + 2 ^ 52 * 2 ^ (bitLen q - 53) := by ring
    have e2 : 2 ^ 53 * (roundShiftEven q (bitLen q - 53)
          * 2 ^ (bitLen q - 53))
        = 2 * (2 ^ 52 * 2 ^ (bitLen q - 53)
            * roundShiftEven q (bitLen q - 53)) := by ring
    have e3 : 2 ^ 52 * 2 ^ (bitLen q - 53) = 2 ^ (52 + (bitLen q - 53)) :=
      (pow_add 2 52 (bitLen q - 53)).symm
    have e4 : 2 ^ 52 * (2 * q) = 2 ^ 53 * q := by ring
    rw [e2]
    rw [e1, e4, e3] at hA2
    omega

theorem growPolicy_ge (n : Nat) : n ≤ growPolicy n := by
  have h1 := f64Round_lb n
  have h2 := f64Round_lb ((f64Round n).1 * c12)
  unfold growPolicy
  simp only []
  rcases hp1 : f64Round n with ⟨m1, a1⟩
  rw [hp1] at h1
  simp only [] at h1
  rcases hp2 : f64Round (m1 * c12) with ⟨m2, s2⟩
  rw [hp1] at h2
  simp only [] at h2
  rw [hp2] at h2
  simp only [] at h2
  have key : 2 ^ 52 * n ≤ m2 * 2 ^ s2 * 2 ^ a1 := by
    have c1 : (2 ^ 53 - 1) * c12 * ((2 ^ 53 - 1) * n)
        ≤ (2 ^ 53 - 1) * c12 * (2 ^ 53 * (m1 * 2 ^ a1)) :=
      Nat.mul_le_mul_left _ h1
    have c2 : 2 ^ 53 * 2 ^ a1 * ((2 ^ 53 - 1) * (m1 * c12))
        ≤ 2 ^ 53 * 2 ^ a1 * (2 ^ 53 * (m2 * 2 ^ s2)) :=
      Nat.mul_le_mul_left _ h2
    have e5 : (2 ^ 53 - 1) * c12 * (2 ^ 53 * (m1 * 2 ^ a1))
        = 2 ^ 53 * 2 ^ a1 * ((2 ^ 53 - 1) * (m1 * c12)) := by ring
    have e6 : 2 ^ 53 * 2 ^ a1 * (2 ^ 53 * (m2 * 2 ^ s2))
        = 2 ^ 106 * (m2 * 2 ^ s2 * 2 ^ a1) := by ring
    have cconst : 2 ^ 106 * (2 ^ 52 * n)
        ≤ (2 ^ 53 - 1) * c12 * ((2 ^ 53 - 1) * n) := by
      have hmul : 2 ^ 106 * 2 ^ 52 ≤ (2 ^ 53 - 1) * c12 * (2 ^ 53 - 1) := by
        unfold c12
        norm_num
      calc 2 ^ 106 * (2 ^ 52 * n) = 2 ^ 106 * 2 ^ 52 * n := by ring
        _ ≤ (2 ^ 53 - 1) * c12 * (2 ^ 53 - 1) * n :=
          Nat.mul_le_mul_right n hmul
        _ = (2 ^ 53 - 1) * c12 * ((2 ^ 53 - 1) * n) := by ring
    have chain : 2 ^ 106 * (2 ^ 52 * n) ≤ 2 ^ 106 * (m2 * 2 ^ s2 * 2 ^ a1) := by
      calc 2 ^ 106 * (2 ^ 52 * n)
          ≤ (2 ^ 53 - 1) * c12 * ((2 ^ 53 - 1) * n) := cconst
        _ ≤ (2 ^ 53 - 1) * c12 * (2 ^ 53 * (m1 * 2 ^ a1)) := c1
        _ = 2 ^ 53 * 2 ^ a1 * ((2 ^ 53 - 1) * (m1 * c12)) := e5
        _ ≤ 2 ^ 53 * 2 ^ a1 * (2 ^ 53 * (m2 * 2 ^ s2)) := c2
        _ = 2 ^ 106 * (m2 * 2 ^ s2 * 2 ^ a1) := e6
    exact Nat.le_of_mul_le_mul_left chain (by norm_num)
  split
  case isTrue h =>
    have e7 : m2 * 2 ^ s2 * 2 ^ a1 = m2 * 2 ^ (a1 + s2 - 52) * 2 ^ 52 := by
      rw [mul_assoc, ← pow_add, mul_assoc, ← pow_add]
      congr 2
      omega
    rw [e7] at key
    rw [Nat.mul_comm (2 ^ 52) n] at key
    exact Nat.le_of_mul_le_mul_right key (by norm_num)
  case isFalse h =>
    rw [Nat.le_div_iff_mul_le (pow_pos (by norm_num) _)]
    have e8 : m2 * 2 ^ s2 * 2 ^ a1 = m2 * 2 ^ (a1 + s2) := by ring
    have e9 : n * 2 ^ (52 - (a1 + s2)) * 2 ^ (a1 + s2) = 2 ^ 52 * n := by
      rw [mul_assoc, ← pow_add,
        show 52 - (a1 + s2) + (a1 + s2) = 52 from by omega]
      ring
    rw [e8] at key
    rw [← e9] at key
    exact Nat.le_of_mul_le_mul_right key (pow_pos (by norm_num) _)

/-! ## Iterator lemmas -/

theorem emitIter_eq {C : Type} [CharElem C] (col : TextColumn C) (n : Nat) :
    ∀ fuel pos, pos ≤ n → n - pos ≤ fuel →
      emitIter fuel (⟨pos, n, col⟩ : TextColumnIt C)
        = (List.range' pos (n - pos)).map fun r => col.value_at r := by
  intro fuel
  induction fuel with
  | zero =>
      intro pos h1 h2
      rw [show n - pos = 0 from by omega]
      rfl
  | succ fuel ih =>
      intro pos h1 h2
      by_cases hpn : pos = n
      · subst hpn
        rw [Nat.sub_self]
        unfold emitIter TextColumnIt.next_impl
        simp
      · unfold emitIter TextColumnIt.next_impl
        simp only []
        rw [if_neg hpn]
        simp only []
        rw [ih (pos + 1) (by omega) (by omega)]
        rw [show n - pos = (n - pos - 1) + 1 from by omega, List.range'_succ]
        simp only [List.map_cons]
        rw [show n - pos - 1 = n - (pos + 1) from by omega]

/-! ## Inversion lemmas for success of the mutating operations -/

theorem set_mut_inv {C : Type} [CharElem C] {col col₂ : TextColumn C}
    {i l : Nat} (h : col.set_mut i l = some col₂) :
    col₂.max_str_len = col.max_str_len
      ∧ col₂.values.length = col.values.length
      ∧ col₂.batchSize = col.batchSize
      ∧ l ≤ col.max_str_len ∧ i < col.batchSize := by
  unfold TextColumn.set_mut at h
  split at h
  · cases h
  · rcases hls : listSet col.indicators i ((l * szOf C : Nat) : Int)
        with _ | inds
    · rw [hls] at h
      cases h
    · rw [hls] at h
      simp only [] at h
      rcases hlv : listSet col.values ((col.max_str_len + 1) * i + l) (defOf C)
          with _ | vals
      · rw [hlv] at h
        cases h
      · rw [hlv] at h
        obtain ⟨hi, hinds⟩ := listSet_eq_some hls
        obtain ⟨hv, hvals⟩ := listSet_eq_some hlv
        injection h with h2
        subst h2
        subst hinds
        subst hvals
        refine ⟨rfl, by simp, ?_, by omega, hi⟩
        unfold TextColumn.batchSize
        simp

theorem set_value_some_pre {C : Type} [CharElem C] {col col₂ : TextColumn C}
    {i : Nat} {input : List C}
    (h : col.set_value i (some input) = some col₂) :
    input.length ≤ col.max_str_len ∧ i < col.batchSize := by
  unfold TextColumn.set_value at h
  simp only [] at h
  rcases hm : col.set_mut i input.length with _ | col₁
  · rw [hm] at h
    cases h
  · have := set_mut_inv hm
    exact ⟨this.2.2.2.1, this.2.2.2.2⟩

theorem set_value_frame {C : Type} [CharElem C] {col col₂ : TextColumn C}
    {i : Nat} {v : Option (List C)} (hwf : col.WF)
    (h : col.set_value i v = some col₂) :
    col₂.max_str_len = col.max_str_len ∧
    col₂.batchSize = col.batchSize ∧
    col₂.WF ∧
    (∀ r, r ≠ i → col₂.indicators[r]? = col.indicators[r]?) ∧
    (∀ p, p < (col.max_str_len + 1) * i
        ∨ (col.max_str_len + 1) * (i + 1) ≤ p →
      col₂.values[p]? = col.values[p]?) := by
  cases v with
  | none =>
      unfold TextColumn.set_value at h
      rcases hls : listSet col.indicators i NULL_DATA with _ | inds
      · rw [hls] at h
        cases h
      · rw [hls] at h
        obtain ⟨hi, hinds⟩ := listSet_eq_some hls
        injection h with h2
        subst h2
        subst hinds
        refine ⟨rfl, by unfold TextColumn.batchSize; simp, ?_, ?_, ?_⟩
        · unfold TextColumn.WF TextColumn.batchSize at hwf ⊢
          simpa using hwf
        · intro r hr
          simp only []
          exact List.getElem?_set_ne (by omega)
        · intro p _
          rfl
  | some input =>
      obtain ⟨hlen, hi⟩ := set_value_some_pre h
      obtain ⟨col₃, heq, hmax, hinds, hvlen, _, hframe⟩ :=
        set_value_some_spec col i input hwf hi hlen
      rw [heq] at h
      injection h with h2
      subst h2
      refine ⟨hmax, ?_, ?_, ?_, hframe⟩
      · unfold TextColumn.batchSize
        rw [hinds, List.length_set]
      · unfold TextColumn.WF
        rw [hvlen, hmax, hwf]
        unfold TextColumn.batchSize
        rw [hinds, List.length_set]
      · intro r hr
        rw [hinds]
        exact List.getElem?_set_ne (by omega)

theorem appendWrite_inv {C : Type} [CharElem C] {col₁ col₂ : TextColumn C}
    {i : Nat} {text : List C}
    (h : TextColumn.appendWrite col₁ i text = some col₂) :
    col₂.max_str_len = col₁.max_str_len
      ∧ col₂.values.length = col₁.values.length
      ∧ col₂.batchSize = col₁.batchSize := by
  unfold TextColumn.appendWrite at h
  rcases hws : writeSlice col₁.values (i * (col₁.max_str_len + 1)) text
      with _ | vals
  · rw [hws] at h
    cases h
  · rw [hws] at h
    simp only [] at h
    rcases hsv : listSet vals (i * (col₁.max_str_len + 1) + text.length)
        (defOf C) with _ | vals₂
    · rw [hsv] at h
      cases h
    · rw [hsv] at h
      simp only [] at h
      rcases hsi : listSet col₁.indicators i ((text.length * szOf C : Nat) : Int)
          with _ | inds
      · rw [hsi] at h
        cases h
      · rw [hsi] at h
        obtain ⟨_, hv2⟩ := listSet_eq_some hsv
        obtain ⟨_, hi2⟩ := listSet_eq_some hsi
        injection h with h2
        subst h2
        subst hv2
        subst hi2
        refine ⟨rfl, ?_, ?_⟩
        · simp [writeSlice_length hws]
        · unfold TextColumn.batchSize
          simp

/-! ## Frame lemma for the writer loop -/

theorem writeAll_frame {C : Type} [CharElem C] :
    ∀ (items : List (Option (List C))) (col col₂ : TextColumn C) (idx : Nat),
      col.WF → writeAll col idx items = some col₂ →
      col₂.max_str_len = col.max_str_len ∧ col₂.batchSize = col.batchSize
        ∧ col₂.WF ∧
      (∀ r, r < idx ∨ idx + items.length ≤ r →
        col₂.indicators[r]? = col.indicators[r]?) ∧
      (∀ p, p < (col.max_str_len + 1) * idx
          ∨ (col.max_str_len + 1) * (idx + items.length) ≤ p →
        col₂.values[p]? = col.values[p]?) := by
  intro items
  induction items with
  | nil =>
      intro col col₂ idx hwf h
      injection h with h2
      subst h2
      exact ⟨rfl, rfl, hwf, fun r _ => rfl, fun p _ => rfl⟩
  | cons item rest ih =>
      intro col col₂ idx hwf h
      unfold writeAll at h
      rcases hsv : col.set_value idx item with _ | colm
      · rw [hsv] at h
        cases h
      · rw [hsv] at h
        obtain ⟨hmax, hbs, hwfm, hindf, hvalf⟩ := set_value_frame hwf hsv
        obtain ⟨hmax2, hbs2, hwf2, hindf2, hvalf2⟩ := ih colm col₂ (idx + 1) hwfm h
        refine ⟨hmax2.trans hmax, hbs2.trans hbs, hwf2, ?_, ?_⟩
        · intro r hr
          simp only [List.length_cons] at hr
          have h1 : col₂.indicators[r]? = colm.indicators[r]? := by
            apply hindf2
            omega
          rw [h1]
          exact hindf r (by omega)
        · intro p hp
          simp only [List.length_cons] at hp
          have hmono : (col.max_str_len + 1) * (idx + 1)
              ≤ (col.max_str_len + 1) * (idx + (rest.length + 1)) :=
            Nat.mul_le_mul_left _ (by omega)
          have h1 : col₂.values[p]? = colm.values[p]? := by
            apply hvalf2
            rw [hmax]
            rcases hp with hp | hp
            · left
              have : (col.max_str_len + 1) * idx
                  ≤ (col.max_str_len + 1) * (idx + 1) :=
                Nat.mul_le_mul_left _ (by omega)
              omega
            · right
              rw [show idx + 1 + rest.length = idx + (rest.length + 1) from by
                omega]
              exact hp
          rw [h1]
          apply hvalf
          rcases hp with hp | hp
          · left
            have : (col.max_str_len + 1) * idx
                ≤ (col.max_str_len + 1) * (idx + 1) := by
              exact Nat.mul_le_mul_left _ (by omega)
            omega
          · right
            omega

/-! ## Claim theorems -/

/-- Claim C1: for every TextColumn and row index below the batch size,
`content_length_at` maps a Null indicator to `None`, NoTotal to
`Some max_len`, and `Length n` to `Some (min max_len (n / element_size))`;
in particular any returned content length is at most `max_len`, even when
the indicator byte length exceeds the committed capacity (truncation). -/
theorem claim1_content_length_at_cases {C : Type} [CharElem C]
    (col : TextColumn C) (r : Nat) (h : r < col.batchSize) :
    (∃ ind, col.indicator_at r = some ind ∧
      (ind = Indicator.Null → col.content_length_at r = some none) ∧
      (ind = Indicator.NoTotal →
        col.content_length_at r = some (some col.max_str_len)) ∧
      (∀ n, ind = Indicator.Length n →
        col.content_length_at r
          = some (some (min col.max_str_len (n / szOf C))))) ∧
    (∀ l, col.content_length_at r = some (some l) → l ≤ col.max_str_len) := by
  constructor
  · have hw : col.indicators[r]? = some (col.indicators.get ⟨r, h⟩) :=
      List.getElem?_eq_getElem h
    have hia : col.indicator_at r
        = some (Indicator.from_isize (col.indicators.get ⟨r, h⟩)) := by
      unfold TextColumn.indicator_at
      rw [hw]
      rfl
    exact ⟨Indicator.from_isize (col.indicators.get ⟨r, h⟩), hia,
      fun he => (content_length_at_of_indicator hia).1 he,
      fun he => (content_length_at_of_indicator hia).2.1 he,
      fun n he => (content_length_at_of_indicator hia).2.2 n he⟩
  · intro l hl
    unfold TextColumn.content_length_at at hl
    rcases hind : col.indicator_at r with _ | ind
    · rw [hind] at hl
      cases hl
    · rw [hind] at hl
      cases ind with
      | Null => simp at hl
      | NoTotal =>
          simp only [] at hl
          injection hl with h1
          injection h1 with h2
          omega
      | Length nb =>
          simp only [] at hl
          injection hl with h1
          injection h1 with h2
          omega

/-- Witness for C1: a truncated row (indicator 5 bytes, capacity 1) has its
content length clamped to the maximum length. -/
theorem claim1_witness :
    (0 < sampleTrunc.batchSize) ∧
    ((∃ ind, sampleTrunc.indicator_at 0 = some ind ∧
      (ind = Indicator.Null → sampleTrunc.content_length_at 0 = some none) ∧
      (ind = Indicator.NoTotal →
        sampleTrunc.content_length_at 0
          = some (some sampleTrunc.max_str_len)) ∧
      (∀ n, ind = Indicator.Length n →
        sampleTrunc.content_length_at 0
          = some (some (min sampleTrunc.max_str_len (n / szOf U8T))))) ∧
    (∀ l, sampleTrunc.content_length_at 0 = some (some l) →
      l ≤ sampleTrunc.max_str_len)) :=
  ⟨by decide, claim1_content_length_at_cases sampleTrunc 0 (by decide)⟩

/-- Claim C2: appending a value and immediately reading it back returns the
value unchanged; the maximum length is unchanged when the value fits, and
grows to at least the value's length when it does not. -/
theorem claim2_append_roundtrip {C : Type} [CharElem C] (col : TextColumn C)
    (i : Nat) (x : List C) (hwf : col.WF) (hi : i < col.batchSize) :
    ∃ col₂, col.append i (some x) = some col₂ ∧
      col₂.value_at i = some (some x) ∧
      (x.length ≤ col.max_str_len → col₂.max_str_len = col.max_str_len) ∧
      (col.max_str_len < x.length → x.length ≤ col₂.max_str_len) := by
  unfold TextColumn.append
  simp only []
  by_cases hg : col.max_str_len < x.length
  · rw [if_pos hg]
    have hwf1 := resize_WF col (growPolicy x.length) i
    have hlen1 : x.length ≤ growPolicy x.length := growPolicy_ge x.length
    obtain ⟨col₂, heq, hval, _, hmax2, _, _, _⟩ :=
      appendWrite_spec (col.resize_max_str (growPolicy x.length) i) i x hwf1
        hi hlen1
    refine ⟨col₂, heq, hval, fun hcon => absurd hcon (by omega), fun _ => ?_⟩
    rw [hmax2]
    exact hlen1
  · rw [if_neg hg]
    obtain ⟨col₂, heq, hval, _, hmax2, _, _, _⟩ :=
      appendWrite_spec col i x hwf hi (by omega)
    exact ⟨col₂, heq, hval, fun _ => hmax2, fun hcon => absurd hcon hg⟩

/-- Witness for C2: appending a 2-character value to a column with
`max_str_len = 1` grows the buffer and reads back the value. -/
theorem claim2_witness :
    (sampleTwoRows.WF ∧ 0 < sampleTwoRows.batchSize) ∧
    (∃ col₂, sampleTwoRows.append 0 (some [a8, b8]) = some col₂ ∧
      col₂.value_at 0 = some (some [a8, b8]) ∧
      ([a8, b8].length ≤ sampleTwoRows.max_str_len →
        col₂.max_str_len = sampleTwoRows.max_str_len) ∧
      (sampleTwoRows.max_str_len < [a8, b8].length →
        [a8, b8].length ≤ col₂.max_str_len)) :=
  ⟨⟨by decide, by decide⟩,
    claim2_append_roundtrip sampleTwoRows 0 [a8, b8] (by decide) (by decide)⟩

/-- Counterexample to C3 as stated: a writer with `write_limit = 0` still
mutates row 1 through `set_value` — the pass-through mutators are not
bounds-checked against the write limit. -/
theorem claim3_counterexample :
    (TextColumnWriter.set_value (sampleTwoRows.writer_n 0) 1
      (some [a8])).map (fun w => w.column.indicators) = some [0, 1]
    ∧ sampleTwoRows.indicators = [0, 0]
    ∧ (TextColumn.writer_n sampleTwoRows 0).to_ ≤ 1 := by decide

/-- Claim C3 (amended): only `write` is bounded by the writer's
`write_limit` — it consumes at most `write_limit` items and leaves every row
index at or beyond the limit untouched (indicator, stride and row bytes);
`set_value`, `append` and `set_mut` are unchecked pass-throughs to the
column. -/
theorem claim3_writer_write_bounded {C : Type} [CharElem C]
    (col : TextColumn C) (lim : Nat) (items : List (Option (List C)))
    (r : Nat) (hwf : col.WF) (hr : lim ≤ r) :
    (∀ w₂, (col.writer_n lim).write items = some w₂ →
      w₂.column.indicators[r]? = col.indicators[r]?
        ∧ w₂.column.max_str_len = col.max_str_len
        ∧ rowAt w₂.column r = rowAt col r
        ∧ w₂.to_ = lim) ∧
    (∀ i v, (col.writer_n lim).set_value i v
        = (col.set_value i v).map fun c => ⟨c, lim⟩) ∧
    (∀ i t, (col.writer_n lim).append i t
        = (col.append i t).map fun c => ⟨c, lim⟩) ∧
    (∀ i l, (col.writer_n lim).set_mut i l
        = (col.set_mut i l).map fun c => ⟨c, lim⟩) := by
  refine ⟨?_, fun i v => rfl, fun i t => rfl, fun i l => rfl⟩
  intro w₂ hw
  unfold TextColumn.writer_n TextColumnWriter.write at hw
  simp only [] at hw
  rcases hwa : writeAll col 0 (items.take lim) with _ | colw
  · rw [hwa] at hw
    cases hw
  · rw [hwa] at hw
    injection hw with hw2
    subst hw2
    obtain ⟨hmax, _, _, hindf, hvalf⟩ := writeAll_frame (items.take lim) col
      colw 0 hwf hwa
    have htlen : (items.take lim).length ≤ lim := by
      simp [List.length_take]
    refine ⟨hindf r (by omega), hmax, ?_, rfl⟩
    unfold rowAt
    rw [hmax]
    apply List.ext_getElem?
    intro j
    rw [List.getElem?_take, List.getElem?_take]
    by_cases hj : j < col.max_str_len + 1
    · rw [if_pos hj, if_pos hj, List.getElem?_drop, List.getElem?_drop]
      apply hvalf
      right
      calc (col.max_str_len + 1) * (0 + (items.take lim).length)
          ≤ (col.max_str_len + 1) * r := Nat.mul_le_mul_left _ (by omega)
        _ = r * (col.max_str_len + 1) := Nat.mul_comm _ _
        _ ≤ r * (col.max_str_len + 1) + j := by omega
    · rw [if_neg hj, if_neg hj]

/-- Witness for C3 (amended): writing one item through a writer with
`write_limit = 1` leaves row 1 untouched. -/
theorem claim3_witness :
    (sampleTwoRows.WF ∧ 1 ≤ 1) ∧
    ((∀ w₂, (sampleTwoRows.writer_n 1).write [some [a8], some [b8]]
        = some w₂ →
      w₂.column.indicators[1]? = sampleTwoRows.indicators[1]?
        ∧ w₂.column.max_str_len = sampleTwoRows.max_str_len
        ∧ rowAt w₂.column 1 = rowAt sampleTwoRows 1
        ∧ w₂.to_ = 1) ∧
    (∀ i v, (sampleTwoRows.writer_n 1).set_value i v
        = (sampleTwoRows.set_value i v).map fun c => ⟨c, 1⟩) ∧
    (∀ i t, (sampleTwoRows.writer_n 1).append i t
        = (sampleTwoRows.append i t).map fun c => ⟨c, 1⟩) ∧
    (∀ i l, (sampleTwoRows.writer_n 1).set_mut i l
        = (sampleTwoRows.set_mut i l).map fun c => ⟨c, 1⟩)) :=
  ⟨⟨by decide, by decide⟩,
    claim3_writer_write_bounded sampleTwoRows 1 [some [a8], some [b8]] 1
      (by decide) (by decide)⟩

/-- Counterexample to C4 as stated: `get` on a view performs no bound check
against the valid-row count — with zero valid rows, `get 0` still returns the
underlying (meaningless) value instead of panicking. -/
theorem claim4_counterexample :
    (sampleSingle.view 0).num_rows ≤ 0
    ∧ (sampleSingle.view 0).get 0 = some (some [])
    ∧ some (some ([] : List U8T)) ≠ (none : Option (Option (List U8T))) := by
  decide

/-- Claim C4 (amended): on a view with `n` valid rows, `content_length_at r`
panics exactly when `r ≥ n`; `get r` performs no bound check against `n` and
simply delegates to the column's `value_at` (so it panics only beyond the
batch size); and the iterator yields exactly one item per row index in
`[0, n)`, in row order, and nothing beyond. -/
theorem claim4_view_access {C : Type} [CharElem C] (col : TextColumn C)
    (n r fuel : Nat) :
    (n ≤ r → (col.view n).content_length_at r = none) ∧
    ((col.view n).get r = col.value_at r) ∧
    (n ≤ fuel → emitIter fuel ((col.view n).iter)
      = (List.range n).map fun i => col.value_at i) := by
  refine ⟨?_, rfl, ?_⟩
  · intro h
    unfold TextColumn.view TextColumnView.content_length_at
    simp only []
    rw [if_pos h]
  · intro h
    unfold TextColumn.view TextColumnView.iter
    simp only []
    rw [emitIter_eq col n fuel 0 (by omega) (by omega), Nat.sub_zero,
      List.range_eq_range']

/-- Witness for C4 (amended): a view of 1 valid row over a 2-row column:
`content_length_at 1` panics, `get` delegates, and the iterator yields
exactly the one valid row. -/
theorem claim4_witness :
    ((1 : Nat) ≤ 1 → (sampleTwoRows.view 1).content_length_at 1 = none) ∧
    ((sampleTwoRows.view 1).get 1 = sampleTwoRows.value_at 1) ∧
    ((1 : Nat) ≤ 3 → emitIter 3 ((sampleTwoRows.view 1).iter)
      = (List.range 1).map fun i => sampleTwoRows.value_at i) :=
  claim4_view_access sampleTwoRows 1 1 3

/-- Counterexample to C5 as stated: a row whose indicator (4 bytes) exceeds
the old capacity (1) has original content length 1 ≤ min(old, new), yet after
an enlarging resize the value read back is longer (zero-padded), not
byte-identical. -/
theorem claim5_counterexample :
    sampleResize.content_length_at 0 = some (some 1)
    ∧ 1 ≤ min sampleResize.max_str_len 3
    ∧ sampleResize.value_at 0 = some (some [a8])
    ∧ (sampleResize.resize_max_str 3 1).value_at 0
        = some (some [a8, z8, z8])
    ∧ some (some [a8, z8, z8]) ≠ some (some [a8]) := by decide

/-- Claim C5 (amended): `resize_max_str new k` preserves the value read for
every populated row `r < k` whose indicator is Null, or is `Length n` with
effective element length `n / element_size` at most both the old and the new
maximum length (i.e. the stored value was not truncated by either capacity);
a row whose indicator exceeds the old capacity may read back zero-padded
after an enlarging resize. -/
theorem claim5_resize_preserves {C : Type} [CharElem C] (col : TextColumn C)
    (new k r : Nat) (hwf : col.WF) (hrk : r < k) (hrb : r < col.batchSize) :
    (col.indicator_at r = some Indicator.Null →
      (col.resize_max_str new k).value_at r = col.value_at r) ∧
    (∀ nb, col.indicator_at r = some (Indicator.Length nb) →
      nb / szOf C ≤ col.max_str_len → nb / szOf C ≤ new →
      (col.resize_max_str new k).value_at r = col.value_at r) := by
  constructor
  · intro hind
    obtain ⟨h1, h2⟩ := resize_preserves_null col new k r hind
    rw [h1, h2]
  · intro nb hind h1 h2
    exact resize_preserves_length_row col new k r nb hwf hrk hrb hind h1 h2

/-- Witness for C5 (amended): an in-capacity row (empty string) reads the
same before and after an enlarging resize. -/
theorem claim5_witness :
    (sampleSingle.WF ∧ 0 < 1 ∧ 0 < sampleSingle.batchSize) ∧
    ((sampleSingle.indicator_at 0 = some Indicator.Null →
      (sampleSingle.resize_max_str 2 1).value_at 0
        = sampleSingle.value_at 0) ∧
    (∀ nb, sampleSingle.indicator_at 0 = some (Indicator.Length nb) →
      nb / szOf U8T ≤ sampleSingle.max_str_len → nb / szOf U8T ≤ 2 →
      (sampleSingle.resize_max_str 2 1).value_at 0
        = sampleSingle.value_at 0)) :=
  ⟨⟨by decide, by decide, by decide⟩,
    claim5_resize_preserves sampleSingle 2 1 0 (by decide) (by decide)
      (by decide)⟩

/-- Claim C6: `resize_max_str` never rewrites the indicator array — every
row's indicator (preserved or not) is exactly what it was before the call. -/
theorem claim6_resize_keeps_indicators {C : Type} [CharElem C]
    (col : TextColumn C) (new k : Nat) :
    (col.resize_max_str new k).indicators = col.indicators
    ∧ ∀ r, (col.resize_max_str new k).indicator_at r = col.indicator_at r :=
  ⟨rfl, fun _ => rfl⟩

/-- Claim C7: the structural invariants (`indicators.len() = batch_size` and
`values.len() = (max_len + 1) * batch_size`) hold after construction and are
preserved by every mutating operation that succeeds. -/
theorem claim7_invariants {C : Type} [CharElem C] (col : TextColumn C)
    (limit b m : Nat) :
    (∀ col₁ : TextColumn C, TextColumn.try_new limit b m = Except.ok col₁ →
      col₁.WF ∧ col₁.batchSize = b) ∧
    (col.WF →
      (∀ i v col₂, col.set_value i v = some col₂ →
        col₂.WF ∧ col₂.batchSize = col.batchSize) ∧
      (∀ i l col₂, col.set_mut i l = some col₂ →
        col₂.WF ∧ col₂.batchSize = col.batchSize) ∧
      (∀ i t col₂, col.append i t = some col₂ →
        col₂.WF ∧ col₂.batchSize = col.batchSize) ∧
      (∀ a c col₂, col.fill_null a c = some col₂ →
        col₂.WF ∧ col₂.batchSize = col.batchSize) ∧
      (∀ new k, (col.resize_max_str new k).WF
        ∧ (col.resize_max_str new k).batchSize = col.batchSize) ∧
      (∀ new, (col.set_max_len new).WF
        ∧ (col.set_max_len new).batchSize = col.batchSize)) := by
  constructor
  · intro col₁ h
    unfold TextColumn.try_new at h
    simp only [] at h
    split at h
    · cases h
    · injection h with h2
      subst h2
      constructor
      · unfold TextColumn.WF TextColumn.batchSize
        simp
      · unfold TextColumn.batchSize
        simp
  · intro hwf
    refine ⟨?_, ?_, ?_, ?_, ?_, ?_⟩
    · intro i v col₂ h
      have hf := set_value_frame hwf h
      exact ⟨hf.2.2.1, hf.2.1⟩
    · intro i l col₂ h
      obtain ⟨hmax, hvlen, hbs, _, _⟩ := set_mut_inv h
      refine ⟨?_, hbs⟩
      unfold TextColumn.WF
      rw [hvlen, hmax, hbs, hwf]
    · intro i t col₂ h
      cases t with
      | none =>
          unfold TextColumn.append at h
          rcases hls : listSet col.indicators i NULL_DATA with _ | inds
          · rw [hls] at h
            cases h
          · rw [hls] at h
            obtain ⟨hi, hinds⟩ := listSet_eq_some hls
            injection h with h2
            subst h2
            subst hinds
            constructor
            · unfold TextColumn.WF TextColumn.batchSize at hwf ⊢
              simpa using hwf
            · unfold TextColumn.batchSize
              simp
      | some text =>
          unfold TextColumn.append at h
          simp only [] at h
          by_cases hg : col.max_str_len < text.length
          · rw [if_pos hg] at h
            obtain ⟨hmax, hvlen, hbs⟩ := appendWrite_inv h
            have hwf1 := resize_WF col (growPolicy text.length) i
            constructor
            · unfold TextColumn.WF at hwf1 ⊢
              rw [hvlen, hmax, hbs]
              exact hwf1
            · exact hbs
          · rw [if_neg hg] at h
            obtain ⟨hmax, hvlen, hbs⟩ := appendWrite_inv h
            constructor
            · unfold TextColumn.WF
              rw [hvlen, hmax, hbs, hwf]
            · exact hbs
    · intro a c col₂ h
      unfold TextColumn.fill_null at h
      split at h
      · cases h
      · injection h with h2
        subst h2
        constructor
        · unfold TextColumn.WF TextColumn.batchSize at hwf ⊢
          simp only [nullRange_length]
          exact hwf
        · unfold TextColumn.batchSize
          simp [nullRange_length]
    · intro new k
      exact ⟨resize_WF col new k, rfl⟩
    · intro new
      constructor
      · unfold TextColumn.set_max_len TextColumn.WF TextColumn.batchSize
        simp [nullRange_length]
      · unfold TextColumn.set_max_len TextColumn.batchSize
        simp [nullRange_length]

/-- Witness for C7: a freshly constructed 2-row column with maximum length 1
satisfies the invariants. -/
theorem claim7_witness :
    ((TextColumn.try_new 10 2 1 : Except TooLargeBufferSize (TextColumn U8T))
      = Except.ok ⟨1, List.replicate 4 z8, [0, 0]⟩) ∧
    ((⟨1, List.replicate 4 z8, [0, 0]⟩ : TextColumn U8T).WF
      ∧ (⟨1, List.replicate 4 z8, [0, 0]⟩ : TextColumn U8T).batchSize = 2) :=
  ⟨by rfl, (claim7_invariants sampleSingle 10 2 1).1
    ⟨1, List.replicate 4 z8, [0, 0]⟩ (by rfl)⟩

/-- Counterexample to C8 as stated: appending a 2-character value to a
column with `max_str_len = 1` grows the capacity to 2, not to
`ceil(2 * 1.2) = 3` — the source truncates the f64 product toward zero
instead of taking its ceiling. -/
theorem claim8_counterexample :
    (sampleSingle.append 0 (some [a8, b8])).map TextColumn.max_str_len
      = some 2
    ∧ (2 : Nat) ≠ (2 * 6 + 4) / 5 := by decide

/-- Claim C8 (amended): when the appended value exceeds the current maximum
length, `append` grows the capacity to exactly the `usize` truncation of the
`f64` product `data.len() * 1.2` (not its ceiling), which is at least
`data.len()`; the value is then written and no other row's indicator is
modified. -/
theorem claim8_append_growth {C : Type} [CharElem C] (col : TextColumn C)
    (i : Nat) (x : List C) (hwf : col.WF) (hi : i < col.batchSize)
    (hlen : col.max_str_len < x.length) :
    ∃ col₂, col.append i (some x) = some col₂ ∧
      col₂.max_str_len = growPolicy x.length ∧
      x.length ≤ col₂.max_str_len ∧
      col₂.value_at i = some (some x) ∧
      (∀ r, r ≠ i → col₂.indicators[r]? = col.indicators[r]?) := by
  unfold TextColumn.append
  simp only []
  rw [if_pos hlen]
  obtain ⟨col₂, heq, hval, _, hmax2, hinds, _, _⟩ :=
    appendWrite_spec (col.resize_max_str (growPolicy x.length) i) i x
      (resize_WF col (growPolicy x.length) i) hi (growPolicy_ge x.length)
  refine ⟨col₂, heq, hmax2, ?_, hval, ?_⟩
  · rw [hmax2]
    exact growPolicy_ge x.length
  · intro r hr
    rw [hinds]
    exact List.getElem?_set_ne (by omega)

/-- Witness for C8 (amended): the concrete growth of the counterexample
column follows the f64 truncation policy. -/
theorem claim8_witness :
    (sampleSingle.WF ∧ 0 < sampleSingle.batchSize
      ∧ sampleSingle.max_str_len < [a8, b8].length) ∧
    (∃ col₂, sampleSingle.append 0 (some [a8, b8]) = some col₂ ∧
      col₂.max_str_len = growPolicy [a8, b8].length ∧
      [a8, b8].length ≤ col₂.max_str_len ∧
      col₂.value_at 0 = some (some [a8, b8]) ∧
      (∀ r, r ≠ 0 → col₂.indicators[r]? = sampleSingle.indicators[r]?)) :=
  ⟨⟨by decide, by decide, by decide⟩,
    claim8_append_growth sampleSingle 0 [a8, b8] (by decide) (by decide)
      (by decide)⟩

/-- Claim C9: `try_new` either succeeds with a zero-initialized value buffer
of `(max_len + 1) * batch_size` elements and `batch_size` indicators, or
fails with an allocation-size error carrying the element count
(`batch_size`) and the per-element byte size (`(max_len + 1)` times the
character unit's byte size). -/
theorem claim9_try_new {C : Type} [CharElem C] (limit b m : Nat) :
    (∀ col₁ : TextColumn C, TextColumn.try_new limit b m = Except.ok col₁ →
      col₁.max_str_len = m
        ∧ col₁.values = List.replicate ((m + 1) * b) (defOf C)
        ∧ col₁.indicators = List.replicate b 0
        ∧ col₁.WF ∧ col₁.batchSize = b) ∧
    (∀ e, (TextColumn.try_new limit b m :
        Except TooLargeBufferSize (TextColumn C)) = Except.error e →
      e.num_elements = b ∧ e.element_size = (m + 1) * szOf C) := by
  constructor
  · intro col₁ h
    unfold TextColumn.try_new at h
    simp only [] at h
    split at h
    · cases h
    · injection h with h2
      subst h2
      refine ⟨rfl, rfl, rfl, ?_, ?_⟩
      · unfold TextColumn.WF TextColumn.batchSize
        simp
      · unfold TextColumn.batchSize
        simp
  · intro e h
    unfold TextColumn.try_new at h
    simp only [] at h
    split at h
    · injection h with h2
      subst h2
      exact ⟨rfl, rfl⟩
    · cases h

/-- Witness for C9: a request of 3 elements per row and one row against an
allocator limit of 0 fails with the element count and byte size recorded. -/
theorem claim9_witness :
    ((TextColumn.try_new 0 1 2 : Except TooLargeBufferSize (TextColumn U8T))
      = Except.error ⟨1, 3⟩) ∧
    ((1 : Nat) = 1 ∧ (3 : Nat) = (2 + 1) * szOf U8T) :=
  ⟨by rfl, (claim9_try_new 0 1 2).2 ⟨1, 3⟩ (by rfl)⟩

/-- Claim C10: the empty string is representable and distinct from Null —
`set_value i (Some [])` succeeds for any column (including `max_len = 0`),
records indicator `Length 0` and reads back `Some []`; setting `None`
records the Null indicator and reads back `None`; and `value_at` returns
`None` only for a Null indicator. -/
theorem claim10_empty_string {C : Type} [CharElem C] (col : TextColumn C)
    (i : Nat) (hwf : col.WF) (hi : i < col.batchSize) :
    (∃ col₂, col.set_value i (some []) = some col₂ ∧
      col₂.indicator_at i = some (Indicator.Length 0) ∧
      col₂.value_at i = some (some ([] : List C))) ∧
    (∃ col₃, col.set_value i none = some col₃ ∧
      col₃.value_at i = some none ∧
      col₃.indicator_at i = some Indicator.Null) ∧
    (∀ r, col.value_at r = some none →
      col.indicator_at r = some Indicator.Null) := by
  refine ⟨?_, ?_, fun r h => value_at_none_inv h⟩
  · obtain ⟨col₂, heq, hval, _, hind, _, _, _, _⟩ :=
      set_value_roundtrip col i [] hwf hi (by simp)
    exact ⟨col₂, heq, by simpa using hind, hval⟩
  · have heq := set_value_none_spec col i hi
    have hindN : TextColumn.indicator_at
        { col with indicators := col.indicators.set i NULL_DATA } i
        = some Indicator.Null := by
      rw [indicator_at_of_set_eq rfl hi, from_isize_null]
    exact ⟨_, heq, value_at_null (content_length_at_null hindN), hindN⟩

/-- Witness for C10: on a column with `max_len = 0`, the empty string and
Null are distinct, observable states of the same row. -/
theorem claim10_witness :
    (sampleEmptyMax0.WF ∧ 0 < sampleEmptyMax0.batchSize) ∧
    ((∃ col₂, sampleEmptyMax0.set_value 0 (some []) = some col₂ ∧
      col₂.indicator_at 0 = some (Indicator.Length 0) ∧
      col₂.value_at 0 = some (some ([] : List U8T))) ∧
    (∃ col₃, sampleEmptyMax0.set_value 0 none = some col₃ ∧
      col₃.value_at 0 = some none ∧
      col₃.indicator_at 0 = some Indicator.Null) ∧
    (∀ r, sampleEmptyMax0.value_at r = some none →
      sampleEmptyMax0.indicator_at r = some Indicator.Null)) :=
  ⟨⟨by decide, by decide⟩,
    claim10_empty_string sampleEmptyMax0 0 (by decide) (by decide)⟩
